import Mathlib

/-!
Verification of the line-counting / cache-invalidation core of the
vscode-git-stats extension (`lineCounter.ts`, `gitManager.ts`, `cache.ts`).

The TypeScript sources are embedded shallowly: strings are `String` (with
the character list `String.data` used by the recursive workers), JavaScript
`Map`s are association lists, `Date.now()` timestamps are `Int`
milliseconds, and the file-system / git-process boundary is passed in
explicitly: a `readFile` that throws is `Option.none`, a git query that
throws is `Option.none`.  JavaScript regular expressions are modelled by a
small syntax-checking parser plus a positional matcher covering every
construct the glob-to-regex translation can emit; an invalid regex
(constructor throw) is a `none` from the parser.
-/

set_option maxHeartbeats 1000000

/-! ## JavaScript string primitives -/

/-- JavaScript `String.prototype.split` with a single-character separator:
`"".split(sep)` is `[""]`, and every separator occurrence produces a new
(possibly empty) segment. -/
def splitCh (sep : Char) : List Char → List (List Char)
  | [] => [[]]
  | c :: rest =>
    if c = sep then [] :: splitCh sep rest
    else
      match splitCh sep rest with
      | [] => [[c]]
      | seg :: segs => (c :: seg) :: segs

/-- JavaScript `content.split(/\r?\n/)`: a lone `\n` or a `\r\n` pair ends a
segment; a `\r` not followed by `\n` is ordinary content (leftmost,
non-overlapping matches, exactly as the regex engine scans). -/
def splitRN : List Char → List (List Char)
  | [] => [[]]
  | '\n' :: rest => [] :: splitRN rest
  | '\r' :: '\n' :: rest => [] :: splitRN rest
  | c :: rest =>
    match splitRN rest with
    | [] => [[c]]
    | seg :: segs => (c :: seg) :: segs

/-- JavaScript global replacement of a single character
(`String.replace(/c/g, repl)`). -/
def charReplace (t : Char) (repl : List Char) (l : List Char) : List Char :=
  l.flatMap (fun c => if c = t then repl else [c])

/-- JavaScript `pattern.replace(/\*\*/g, '__DOUBLESTAR__')`: leftmost,
non-overlapping. -/
def replaceStars : List Char → List Char
  | '*' :: '*' :: rest => "__DOUBLESTAR__".data ++ replaceStars rest
  | c :: rest => c :: replaceStars rest
  | [] => []

/-- JavaScript `.replace(/__DOUBLESTAR__/g, '.*')`: leftmost,
non-overlapping occurrences of the 14-character placeholder. -/
def replaceDS : List Char → List Char
  | '_' :: '_' :: 'D' :: 'O' :: 'U' :: 'B' :: 'L' :: 'E' :: 'S' :: 'T' :: 'A' :: 'R' :: '_' :: '_' :: rest =>
    '.' :: '*' :: replaceDS rest
  | c :: rest => c :: replaceDS rest
  | [] => []

/-- JavaScript `pattern.replace(/\*\*/g, '')`. -/
def removeStars : List Char → List Char
  | '*' :: '*' :: rest => removeStars rest
  | c :: rest => c :: removeStars rest
  | [] => []

/-- JavaScript `String.prototype.startsWith`. -/
def jsStartsWith (s pre : String) : Bool := pre.data.isPrefixOf s.data

/-- JavaScript `String.prototype.endsWith`. -/
def jsEndsWith (s suff : String) : Bool := suff.data.reverse.isPrefixOf s.data.reverse

/-- JavaScript `String.prototype.includes`. -/
def containsL (hay needle : List Char) : Bool :=
  needle.isPrefixOf hay ||
    match hay with
    | [] => false
    | _ :: t => containsL t needle

/-- Membership of one string inside another (`String.prototype.includes`). -/
def jsIncludes (hay needle : String) : Bool :=
  containsL hay.data needle.data

/-! ## `LineCounter.countFileLines` (both versions) and the spec's
terminator-counting convention -/

/-- `LineCounter.countFileLines` (current version, `lineCounter.ts`
442–463): split the decoded content on `/\r?\n/`; if the final segment is
empty the content ended with a terminator and that segment is not counted,
otherwise all segments count.  The JavaScript reads
`lines[lines.length - 1] === ''`; the split result is always non-empty
(`splitRN_ne_nil`), so that index is the last segment. -/
def countFileLines (content : String) : Nat :=
  if content.length = 0 then 0
  else
    let lines := splitRN content.data
    if lines.getLast? = some [] then lines.length - 1 else lines.length

/-- `LineCounter.countFileLines` (first version, `lineCounter.ts` 116–135):
count the `\n` characters, "exactly like wc -l does". -/
def countFileLinesV1 (content : String) : Nat :=
  if content.length = 0 then 0
  else content.data.count '\n'

/-- The number of line-terminator occurrences as the spec defines them: a
lone `\n`, or a `\r\n` pair counted as one terminator.  Spec-side
definition, used to compare the code against the claimed convention. -/
def countTerminators : List Char → Nat
  | [] => 0
  | '\n' :: rest => countTerminators rest + 1
  | '\r' :: '\n' :: rest => countTerminators rest + 1
  | _ :: rest => countTerminators rest

theorem getLast?_cons_ne {α : Type} (x : α) (s : List α) (h : s ≠ []) :
    (x :: s).getLast? = s.getLast? := by
  cases s with
  | nil => exact absurd rfl h
  | cons b t => exact List.getLast?_cons_cons

theorem countTerminators_eq_count (l : List Char) : countTerminators l = l.count '\n' := by
  induction l using countTerminators.induct with
  | case1 => simp [countTerminators]
  | case2 rest ih => simp [countTerminators, List.count_cons, ih]
  | case3 rest ih => simp [countTerminators, List.count_cons, ih]
  | case4 c rest h1 h2 ih =>
    have hc : ¬ c = '\n' := fun h => h1 h
    rw [countTerminators.eq_4 c rest h1 h2, ih]
    simp [List.count_cons, hc]

theorem splitRN_ne_nil (l : List Char) : splitRN l ≠ [] := by
  induction l using splitRN.induct with
  | case1 => simp [splitRN]
  | case2 rest ih => simp [splitRN]
  | case3 rest ih => simp [splitRN]
  | case4 c rest h1 h2 hrest ih => exact absurd hrest ih
  | case5 c rest h1 h2 seg segs hrest ih =>
    rw [splitRN.eq_4 c rest h1 h2, hrest]
    simp

theorem splitRN_length (l : List Char) : (splitRN l).length = l.count '\n' + 1 := by
  induction l using splitRN.induct with
  | case1 => simp [splitRN]
  | case2 rest ih => simp [splitRN, List.count_cons, ih]
  | case3 rest ih => simp [splitRN, List.count_cons, ih]
  | case4 c rest h1 h2 hrest ih => exact absurd hrest (splitRN_ne_nil rest)
  | case5 c rest h1 h2 seg segs hrest ih =>
    have hc : ¬ c = '\n' := fun h => h1 h
    rw [splitRN.eq_4 c rest h1 h2, hrest]
    rw [hrest] at ih
    simp only [List.length_cons] at ih ⊢
    simp [List.count_cons, hc]
    omega

theorem splitRN_getLast (l : List Char) :
    ((splitRN l).getLast? = some [] ↔ (l = [] ∨ l.getLast? = some '\n')) := by
  induction l using splitRN.induct with
  | case1 => simp [splitRN]
  | case2 rest ih =>
    rw [splitRN, getLast?_cons_ne _ _ (splitRN_ne_nil rest)]
    cases rest with
    | nil => simp [splitRN]
    | cons d rest2 =>
      rw [List.getLast?_cons_cons]
      simp only [List.cons_ne_nil, false_or] at ih ⊢
      exact ih
  | case3 rest ih =>
    rw [splitRN, getLast?_cons_ne _ _ (splitRN_ne_nil rest)]
    cases rest with
    | nil => simp [splitRN]
    | cons d rest2 =>
      rw [List.getLast?_cons_cons, List.getLast?_cons_cons]
      simp only [List.cons_ne_nil, false_or] at ih ⊢
      exact ih
  | case4 c rest h1 h2 hrest ih => exact absurd hrest (splitRN_ne_nil rest)
  | case5 c rest h1 h2 seg segs hrest ih =>
    have hc : ¬ c = '\n' := fun h => h1 h
    rw [splitRN.eq_4 c rest h1 h2, hrest]
    rw [hrest] at ih
    cases segs with
    | nil =>
      have hcount : rest.count '\n' = 0 := by
        have hl := splitRN_length rest
        rw [hrest] at hl
        simpa using hl
      have hnotmem : '\n' ∉ rest := List.count_eq_zero.mp hcount
      constructor
      · intro h
        simp at h
      · intro h
        rcases h with h | h
        · exact absurd h (List.cons_ne_nil c rest)
        · cases rest with
          | nil =>
            simp at h
            exact absurd h hc
          | cons d rest2 =>
            rw [List.getLast?_cons_cons] at h
            exact absurd (List.mem_of_mem_getLast? h) hnotmem
    | cons s2 segs2 =>
      have hrne : rest ≠ [] := by
        intro h
        subst h
        simp [splitRN] at hrest
      rw [List.getLast?_cons_cons, getLast?_cons_ne c rest hrne]
      rw [List.getLast?_cons_cons] at ih
      simp only [hrne, false_or, List.cons_ne_nil] at ih ⊢
      exact ih

theorem countFileLines_characterization (content : String) :
    countFileLines content =
      countTerminators content.data +
        (if content.data ≠ [] ∧ content.data.getLast? ≠ some '\n' then 1 else 0) := by
  rw [countFileLines, countTerminators_eq_count]
  have hlen : content.length = content.data.length := rfl
  by_cases h0 : content.length = 0
  · rw [if_pos h0]
    have hnil : content.data = [] := List.length_eq_zero.mp (hlen ▸ h0)
    simp [hnil]
  · rw [if_neg h0]
    have hne : content.data ≠ [] := by
      intro h
      exact h0 (by rw [hlen, h]; rfl)
    by_cases hL : (splitRN content.data).getLast? = some []
    · simp only [hL, if_pos rfl]
      rw [splitRN_length]
      have hnl : content.data.getLast? = some '\n' :=
        ((splitRN_getLast _).mp hL).resolve_left hne
      simp [hne, hnl]
    · rw [if_neg hL, splitRN_length]
      have hnl : ¬ content.data.getLast? = some '\n' := fun h =>
        hL ((splitRN_getLast _).mpr (Or.inr h))
      simp [hne, hnl]

/-! ## Data model (`lineCounter.ts` interfaces) -/

/-- `FileInfo` from `lineCounter.ts`. -/
structure FileInfo where
  path : String
  lines : Nat
  extension : String
deriving DecidableEq, Repr

/-- `LineCountResult` from `lineCounter.ts` (current version, with the
per-file breakdown). -/
structure LineCountResult where
  totalLines : Nat
  fileCount : Nat
  files : List FileInfo
deriving DecidableEq, Repr

/-! ## `Cache` (`cache.ts`)

A JavaScript `Map` keyed by strings is modelled as an association list with
unique keys; `Map.get` is the lookup of the key's entry, `Map.set` replaces
the existing entry for the key or appends a new one, and `Map.delete`
removes the key's entry. -/

/-- `CacheEntry` from `cache.ts`.  `gitHead` is `string | null`, hence
`Option String`; `timestamp` is a `Date.now()` value in milliseconds. -/
structure CacheEntry where
  workspaceRoot : String
  gitHead : Option String
  workingTreeStatus : String
  lineCountResult : LineCountResult
  timestamp : Int
deriving DecidableEq, Repr

/-- The `Map` state of a `Cache` instance. -/
def CacheMap : Type := List (String × CacheEntry)

/-- JavaScript `Map.get`. -/
def mapGet (m : CacheMap) (k : String) : Option CacheEntry :=
  match m with
  | [] => none
  | (k1, v1) :: rest => if k1 = k then some v1 else mapGet rest k

/-- JavaScript `Map.set`: overwrite the entry for the key if present,
otherwise append. -/
def mapSet (m : CacheMap) (k : String) (v : CacheEntry) : CacheMap :=
  match m with
  | [] => [(k, v)]
  | (k1, v1) :: rest => if k1 = k then (k, v) :: rest else (k1, v1) :: mapSet rest k v

/-- JavaScript `Map.delete`: remove the key's entry (Map keys are unique,
so removing every pair with the key is the same operation). -/
def mapDelete (m : CacheMap) (k : String) : CacheMap :=
  m.filter (fun e => ¬ e.1 = k)

/-- `Cache.getKey` (`cache.ts` 59–61): the key is the workspace root. -/
def getKey (workspaceRoot : String) : String := workspaceRoot

/-- `Cache.maxAge` (`cache.ts` 13): 5000 ms. -/
def maxAge : Int := 5000

/-- `Cache.get` (`cache.ts` 15–37).  Returns the looked-up result (null is
`none`) together with the map after the lookup's eviction side effects;
`now` is the `Date.now()` read at line 24. -/
def cacheGet (m : CacheMap) (workspaceRoot : String) (gitHead : Option String)
    (workingTreeStatus : String) (now : Int) : Option LineCountResult × CacheMap :=
  let key := getKey workspaceRoot
  match mapGet m key with
  | none => (none, m)
  | some entry =>
    if now - entry.timestamp > maxAge then (none, mapDelete m key)
    else if entry.gitHead ≠ gitHead ∨ entry.workingTreeStatus ≠ workingTreeStatus then
      (none, mapDelete m key)
    else (some entry.lineCountResult, m)

/-- `Cache.set` (`cache.ts` 39–48); `now` is the `Date.now()` at line 46. -/
def cacheSet (m : CacheMap) (workspaceRoot : String) (gitHead : Option String)
    (workingTreeStatus : String) (result : LineCountResult) (now : Int) : CacheMap :=
  mapSet m (getKey workspaceRoot)
    { workspaceRoot := workspaceRoot, gitHead := gitHead,
      workingTreeStatus := workingTreeStatus, lineCountResult := result,
      timestamp := now }

/-- `Cache.clear` (`cache.ts` 50–52). -/
def cacheClear (_ : CacheMap) : CacheMap := []

/-- `Cache.clearForWorkspace` (`cache.ts` 54–57). -/
def clearForWorkspace (m : CacheMap) (workspaceRoot : String) : CacheMap :=
  mapDelete m (getKey workspaceRoot)

theorem mapGet_mapSet_self (m : CacheMap) (k : String) (v : CacheEntry) :
    mapGet (mapSet m k v) k = some v := by
  induction m with
  | nil => simp [mapGet, mapSet]
  | cons e rest ih =>
    obtain ⟨k1, v1⟩ := e
    by_cases h : k1 = k
    · simp [mapSet, mapGet, h]
    · simp [mapSet, mapGet, h, ih]

theorem mapGet_mapDelete_self (m : CacheMap) (k : String) :
    mapGet (mapDelete m k) k = none := by
  induction m with
  | nil => simp [mapGet, mapDelete]
  | cons e rest ih =>
    obtain ⟨k1, v1⟩ := e
    by_cases h : k1 = k
    · simpa [mapDelete, h] using ih
    · simpa [mapDelete, List.filter, mapGet, h] using ih

theorem mapGet_mapDelete_ne (m : CacheMap) (k j : String) (h : k ≠ j) :
    mapGet (mapDelete m k) j = mapGet m j := by
  induction m with
  | nil => simp [mapGet, mapDelete]
  | cons e rest ih =>
    obtain ⟨k1, v1⟩ := e
    by_cases h1 : k1 = k
    · subst h1
      simpa [mapDelete, List.filter, mapGet, h] using ih
    · by_cases h2 : k1 = j
      · have h3 : ¬ k1 = k := h1
        subst h2
        have h4 : ¬ k1 = k := h3
        simp [mapDelete, List.filter, mapGet, h4]
      · simpa [mapDelete, List.filter, mapGet, h1, h2] using ih

theorem mapGet_mapSet_mapSet (m : CacheMap) (k : String) (v1 v2 : CacheEntry)
    (j : String) : mapGet (mapSet (mapSet m k v1) k v2) j = mapGet (mapSet m k v2) j := by
  induction m with
  | nil => simp [mapGet, mapSet]
  | cons e rest ih =>
    obtain ⟨k1, w⟩ := e
    by_cases h : k1 = k
    · simp [mapSet, h]
    · simp [mapSet, mapGet, h, ih]

/-! ## `GitManager` (`gitManager.ts`)

Results of the individual git queries (`simple-git` calls) are inputs of the
model: a query that throws is `none`.  `readFile` is the ambient file
system `fs : String → Option String` with `none` for an unreadable path. -/

/-- JavaScript string trim (the whitespace characters relevant to git
output: space, tab, carriage return, newline). -/
def trimL (l : List Char) : List Char :=
  ((l.dropWhile Char.isWhitespace).reverse.dropWhile Char.isWhitespace).reverse

/-- `path.join(root, file)` for a git-listed relative path under a root
(no `..` normalization is needed for such inputs). -/
def joinPath (root file : String) : String := root ++ "/" ++ file

/-- `parseInt(s) || 0`: the decimal digit prefix after leading whitespace;
a field with no digit prefix (such as the `-` of a binary numstat line)
parses to `NaN`, which `|| 0` turns into 0.  Numstat fields are never
negative, so the sign handling of `parseInt` is not reachable. -/
def jsParseIntOr0 (s : String) : Nat :=
  let t := s.data.dropWhile Char.isWhitespace
  let digits := t.takeWhile Char.isDigit
  digits.foldl (fun n c => n * 10 + (c.toNat - 48)) 0

/-- One line of `GitManager.parseNumstat` (`gitManager.ts` 156–164). -/
def parseNumstatLine (line : List Char) : Nat × Nat :=
  match splitCh '\t' line with
  | p0 :: p1 :: _ => (jsParseIntOr0 ⟨p0⟩, jsParseIntOr0 ⟨p1⟩)
  | _ => (0, 0)

/-- `GitManager.parseNumstat` (`gitManager.ts` 146–167). -/
def parseNumstat (out : String) : Nat × Nat :=
  if out = "" then (0, 0)
  else
    ((splitCh '\n' out.data).filter (fun l => trimL l ≠ [])).foldl
      (fun acc l =>
        let p := parseNumstatLine l
        (acc.1 + p.1, acc.2 + p.2)) (0, 0)

/-- The per-file count of the untracked-file loop in
`GitManager.getWorkingChanges` (`gitManager.ts` 129–138):
`content.split('\n').length`. -/
def untrackedFileLines (content : String) : Nat :=
  (splitCh '\n' content.data).length

/-- The untracked-file loop of `GitManager.getWorkingChanges`: an unreadable
file is skipped (`catch`), a readable one contributes
`untrackedFileLines`. -/
def untrackedLinesTotal (fs : String → Option String) (root : String) : List String → Nat
  | [] => 0
  | f :: rest =>
    (match fs (joinPath root f) with
     | none => 0
     | some c => untrackedFileLines c) + untrackedLinesTotal fs root rest

/-- The record returned by `GitManager.getWorkingChanges`. -/
structure WorkingChanges where
  additions : Nat
  deletions : Nat
  untrackedLines : Nat
deriving DecidableEq, Repr

/-- `GitManager.getWorkingChanges` (`gitManager.ts` 109–144), with the
staged / unstaged `--numstat` outputs and the `status.not_added` list as
the git-query inputs. -/
def getWorkingChanges (fs : String → Option String) (root : String)
    (stagedNumstat unstagedNumstat : String) (notAdded : List String) : WorkingChanges :=
  let s := parseNumstat stagedNumstat
  let u := parseNumstat unstagedNumstat
  { additions := s.1 + u.1
    deletions := s.2 + u.2
    untrackedLines := untrackedLinesTotal fs root notAdded }

/-- `GitStats` from `gitManager.ts`. -/
structure GitStats where
  branch : String
  branchAdditions : Nat
  branchDeletions : Nat
  workingAdditions : Nat
  workingDeletions : Nat
  untrackedLines : Nat
  isMainBranch : Bool
deriving DecidableEq, Repr

/-- `GitManager.findMainBranch` (`gitManager.ts` 85–107) for a fresh
instance (`mainBranch` starts as null).  `branchesQ` is `git.branch().all`,
`remoteQ` is `git.branch(['-r']).all`; a throwing query is `none` and makes
the whole lookup null via the surrounding catch. -/
def findMainBranch (branchesQ : Option (List String)) (remoteQ : Option (List String)) :
    Option String :=
  match branchesQ with
  | none => none
  | some all =>
    if all.contains "main" then some "main"
    else if all.contains "master" then some "master"
    else
      match remoteQ with
      | none => none
      | some rall =>
        if rall.any (fun b => jsIncludes b "origin/main") then some "main"
        else if rall.any (fun b => jsIncludes b "origin/master") then some "master"
        else none

/-- JavaScript `x || 'default'` on a nullable string: null and the empty
string are falsy. -/
def jsOrDefault (s : Option String) (d : String) : String :=
  match s with
  | none => d
  | some b => if b = "" then d else b

/-- `GitManager.getGitStats` (`gitManager.ts` 38–83).  `statusQ` is the
`git.status()` call (`none` = throw, which the outer catch turns into a
null result) carrying `status.current`; `diffQ` is the
`main...HEAD` `diffSummary` insertions/deletions (`none` = throw, ignored
by the inner catch); the working-changes record is the result of
`getWorkingChanges`. -/
def getGitStats (isRepo : Bool) (statusQ : Option (Option String))
    (branchesQ remoteQ : Option (List String)) (diffQ : Option (Nat × Nat))
    (working : WorkingChanges) : Option GitStats :=
  if ¬ isRepo then none
  else
    match statusQ with
    | none => none
    | some current =>
      let branch := jsOrDefault current "unknown"
      let mainBranch := findMainBranch branchesQ remoteQ
      let isMainBranch : Bool := mainBranch = some branch
      let bstats :=
        if mainBranch.isSome ∧ ¬ isMainBranch then
          match diffQ with
          | some s => s
          | none => (0, 0)
        else (0, 0)
      some { branch := branch
             branchAdditions := bstats.1
             branchDeletions := bstats.2
             workingAdditions := working.additions
             workingDeletions := working.deletions
             untrackedLines := working.untrackedLines
             isMainBranch := isMainBranch }

theorem splitCh_length (sep : Char) (l : List Char) :
    (splitCh sep l).length = l.count sep + 1 := by
  induction l with
  | nil => simp [splitCh]
  | cons c rest ih =>
    by_cases h : c = sep
    · simp [splitCh, h, List.count_cons, ih]
    · rw [splitCh]
      simp only [if_neg h]
      have hne : splitCh sep rest ≠ [] := by
        cases rest with
        | nil => simp [splitCh]
        | cons d r2 =>
          rcases Decidable.em (d = sep) with h2 | h2
          · simp [splitCh, h2]
          · rw [splitCh]
            simp only [if_neg h2]
            rcases hsp : splitCh sep r2 with _ | ⟨s, ss⟩
            · simp
            · simp
      rcases hsp : splitCh sep rest with _ | ⟨s, ss⟩
      · exact absurd hsp hne
      · have := ih
        rw [hsp] at this
        simp only [List.length_cons] at this ⊢
        simp [List.count_cons, h]
        omega

/-! ## JavaScript regular expressions (`new RegExp`, `.test`)

The glob-to-regex translation of `LineCounter.isExcluded` produces regexes
built from literal characters, `\.` escapes, `.`, `[^/]`-style classes,
`*` / `+` / `?` quantifiers, groups, alternation and the `^` / `$`
assertions.  The model parses exactly that fragment of the ECMAScript
syntax (an invalid source, such as an unterminated group, is `none` —
the constructor throw) and matches with a positional semantics:
`ends r s i` is the set of end positions of matches of `r` starting at
position `i`; star iteration carries fuel, and every iteration advances
the position, so `matchFuel` is always sufficient. -/

/-- An item of a character class: a single character or a range. -/
inductive ClassItem where
  | single (c : Char)
  | range (lo hi : Char)
deriving DecidableEq, Repr

/-- The regex fragment reachable from the glob translation. -/
inductive Regex where
  | eps
  | char (c : Char)
  | dot
  | cls (neg : Bool) (items : List ClassItem)
  | seq (r1 r2 : Regex)
  | alt (r1 r2 : Regex)
  | star (r : Regex)
  | caret
  | dollar
deriving DecidableEq, Repr

def classItemMatch (c : Char) : ClassItem → Bool
  | .single d => c = d
  | .range lo hi => lo ≤ c && c ≤ hi

def classMatch (neg : Bool) (items : List ClassItem) (c : Char) : Bool :=
  let m := items.any (classItemMatch c)
  if neg then !m else m

/-- End positions of matches of `r` in `s` beginning at position `i`
(`.` does not match a newline, as in JavaScript without the `s` flag).
Star iteration is inlined: a further iteration must advance the position,
and the fuel (decremented on every recursive step) bounds the recursion
depth; `matchFuel` always exceeds that depth. -/
def endsF : Nat → List Char → Regex → Nat → List Nat
  | 0, _, _, _ => []
  | fuel + 1, s, r, i =>
    match r with
    | .eps => [i]
    | .char c =>
      match s[i]? with
      | some d => if d = c then [i + 1] else []
      | none => []
    | .dot =>
      match s[i]? with
      | some d => if d = '\n' then [] else [i + 1]
      | none => []
    | .cls neg items =>
      match s[i]? with
      | some d => if classMatch neg items d then [i + 1] else []
      | none => []
    | .seq r1 r2 => ((endsF fuel s r1 i).map (fun j => endsF fuel s r2 j)).flatten
    | .alt r1 r2 => endsF fuel s r1 i ++ endsF fuel s r2 i
    | .star r1 =>
      i :: (((endsF fuel s r1 i).filter (fun j => i < j)).map
        (fun j => endsF fuel s (.star r1) j)).flatten
    | .caret => if i = 0 then [i] else []
    | .dollar => if i = s.length then [i] else []

/-- Size of a regex term (the `SizeOf` instance is not executable). -/
def regexSize : Regex → Nat
  | .seq r1 r2 => regexSize r1 + regexSize r2 + 1
  | .alt r1 r2 => regexSize r1 + regexSize r2 + 1
  | .star r => regexSize r + 1
  | _ => 1

/-- A fuel bound that the nesting depth of star iterations never reaches. -/
def matchFuel (s : List Char) (r : Regex) : Nat := (s.length + 2) * (regexSize r + 2)

/-- JavaScript `regex.test(str)`: some match exists starting at some
position. -/
def jsTest (r : Regex) (str : String) : Bool :=
  let s := str.data
  (List.range (s.length + 1)).any (fun i => !(endsF (matchFuel s r) s r i).isEmpty)

/-- Numeric value of a run of decimal digits. -/
def digitsToNat (ds : List Char) : Nat :=
  ds.foldl (fun n c => n * 10 + (c.toNat - 48)) 0

/-- The body of a braced quantifier after the opening brace: digits, an
optional comma with optional upper-bound digits, and the closing brace.
Returns `(n, some m)` for fixed or two-bound forms, `(n, none)` for the
open-ended form, with the remaining input; `none` when the braces do not
have quantifier syntax at all (Annex B then treats the brace as a
literal). -/
def bracedBounds (cs : List Char) : Option (Nat × Option Nat × List Char) :=
  let ds := cs.takeWhile Char.isDigit
  let rest := cs.dropWhile Char.isDigit
  if ds.isEmpty then none
  else
    let n := digitsToNat ds
    match rest with
    | '\x7d' :: rest2 => some (n, some n, rest2)
    | ',' :: '\x7d' :: rest2 => some (n, none, rest2)
    | ',' :: rest2 =>
      let ds2 := rest2.takeWhile Char.isDigit
      let rest3 := rest2.dropWhile Char.isDigit
      if ds2.isEmpty then none
      else
        match rest3 with
        | '\x7d' :: rest4 => some (n, some (digitsToNat ds2), rest4)
        | _ => none
    | _ => none

/-- `n` sequenced copies of a regex (`r{n}` prefix). -/
def repeatRegex (r : Regex) : Nat → Regex
  | 0 => .eps
  | n + 1 => .seq r (repeatRegex r n)

/-- `k` sequenced optional copies of a regex (the `{n,m}` tail). -/
def optRepeat (r : Regex) : Nat → Regex
  | 0 => .eps
  | k + 1 => .seq (.alt r .eps) (optRepeat r k)

/-- `^` and `$` cannot be quantified (they are not quantifiable
assertions; a quantifier after them is "nothing to repeat"). -/
def isAssertion : Regex → Bool
  | .caret => true
  | .dollar => true
  | _ => false

/-- One endpoint inside a character class: an escaped character (only
`\.` is reachable, every user backslash having become `/`) or a plain
character. -/
def classAtom : List Char → Option (Char × List Char)
  | [] => none
  | '\\' :: [] => none
  | '\\' :: d :: rest => some (d, rest)
  | c :: rest => some (c, rest)

mutual

/-- Alternation level: `seq ('|' seq)*`. -/
def parseAlt : Nat → List Char → Option (Regex × List Char)
  | 0, _ => none
  | fuel + 1, cs =>
    match parseSeq fuel cs with
    | none => none
    | some (r, rest) =>
      match rest with
      | '|' :: rest2 =>
        match parseAlt fuel rest2 with
        | none => none
        | some (r2, rest3) => some (.alt r r2, rest3)
      | _ => some (r, rest)

/-- Sequence level: a run of quantified atoms, ending at `|`, `)` or the
end of input (an empty run is the empty regex, as in ECMAScript). -/
def parseSeq : Nat → List Char → Option (Regex × List Char)
  | 0, _ => none
  | fuel + 1, cs =>
    match cs with
    | [] => some (.eps, [])
    | '|' :: _ => some (.eps, cs)
    | ')' :: _ => some (.eps, cs)
    | _ =>
      match parseTerm fuel cs with
      | none => none
      | some (r, rest) =>
        match parseSeq fuel rest with
        | none => none
        | some (r2, rest2) => some (.seq r r2, rest2)

/-- An atom with an optional `*` / `+` / `?` or braced quantifier.
Braces that do not have quantifier syntax are left for the next atom
(Annex B literal brace); an out-of-order `{n,m}` is a syntax error; a
quantifier on a bare `^` / `$` assertion is "nothing to repeat".  A
second quantifier character is left for the caller and likewise rejected
— lazy quantifiers cannot arise from the glob translation. -/
def parseTerm : Nat → List Char → Option (Regex × List Char)
  | 0, _ => none
  | fuel + 1, cs =>
    match parseAtom fuel cs with
    | none => none
    | some (r, rest) =>
      match rest with
      | '*' :: rest2 => if isAssertion r then none else some (.star r, rest2)
      | '+' :: rest2 => if isAssertion r then none else some (.seq r (.star r), rest2)
      | '?' :: rest2 => if isAssertion r then none else some (.alt r .eps, rest2)
      | '\x7b' :: rest2 =>
        match bracedBounds rest2 with
        | some (n, bound, rest3) =>
          if isAssertion r then none
          else
            match bound with
            | some m =>
              if n ≤ m then some (.seq (repeatRegex r n) (optRepeat r (m - n)), rest3)
              else none
            | none => some (.seq (repeatRegex r n) (.star r), rest3)
        | none => some (r, rest)
      | _ => some (r, rest)

/-- Atoms: assertions, `.`, groups, classes, escapes and literal
characters; a quantifier with nothing to repeat, an unmatched `)`, a
trailing `\` and an unterminated group are syntax errors (`none`). -/
def parseAtom : Nat → List Char → Option (Regex × List Char)
  | 0, _ => none
  | fuel + 1, cs =>
    match cs with
    | [] => none
    | '^' :: rest => some (.caret, rest)
    | '$' :: rest => some (.dollar, rest)
    | '.' :: rest => some (.dot, rest)
    | '(' :: rest =>
      match parseAlt fuel rest with
      | some (r, ')' :: rest2) => some (r, rest2)
      | _ => none
    | ')' :: _ => none
    | '[' :: '^' :: rest => parseClsItems fuel rest [] true
    | '[' :: rest => parseClsItems fuel rest [] false
    | '\\' :: d :: rest => some (.char d, rest)
    | '\\' :: [] => none
    | '*' :: _ => none
    | '+' :: _ => none
    | '?' :: _ => none
    | '|' :: _ => none
    | '\x7b' :: rest =>
      match bracedBounds rest with
      | some _ => none
      | none => some (.char '\x7b', rest)
    | c :: rest => some (.char c, rest)

/-- Items of a character class up to the closing `]`.  Endpoints may be
escaped (`[\.-z]` is the range from `.` to `z`); a range whose dash is
immediately followed by `]` is two literals; an out-of-order range and an
unterminated class are syntax errors. -/
def parseClsItems : Nat → List Char → List ClassItem → Bool → Option (Regex × List Char)
  | 0, _, _, _ => none
  | fuel + 1, cs, acc, neg =>
    match cs with
    | [] => none
    | ']' :: rest => some (.cls neg acc.reverse, rest)
    | cs =>
      match classAtom cs with
      | none => none
      | some (c1, rest1) =>
        match rest1 with
        | '-' :: ']' :: _ => parseClsItems fuel rest1 (.single c1 :: acc) neg
        | '-' :: rest2 =>
          match classAtom rest2 with
          | none => none
          | some (c2, rest3) =>
            if c1 ≤ c2 then parseClsItems fuel rest3 (.range c1 c2 :: acc) neg
            else none
        | _ => parseClsItems fuel rest1 (.single c1 :: acc) neg

end

/-- `new RegExp(src)`: parse the whole source; leftover input (an
unmatched `)`) or a parse failure is the constructor throwing. -/
def compileRegex (src : String) : Option Regex :=
  match parseAlt (4 * src.length + 16) src.data with
  | some (r, []) => some r
  | _ => none

/-! ## `LineCounter.isExcluded` (`lineCounter.ts` 343–375) -/

/-- The glob-to-regex translation chain of `isExcluded`: backslashes to
slashes, dots escaped, `**` to `.*` (via a placeholder so a bare `*`
becomes `[^/]*` first), `?` to `.`; a pattern ending in `/**` has the
final two regex characters replaced by `(/.*)?`. -/
def translatePattern (pattern : String) : String :=
  let p1 := charReplace '\\' ['/'] pattern.data
  let p2 := charReplace '.' ['\\', '.'] p1
  let p3 := replaceStars p2
  let p4 := charReplace '*' "[^/]*".data p3
  let p5 := replaceDS p4
  let p6 := charReplace '?' ['.'] p5
  if jsEndsWith pattern "/**" then ⟨p6.dropLast.dropLast ++ "(/.*)?".data⟩
  else ⟨p6⟩

/-- Whether both regexes built from a pattern compile (the loop constructs
both before testing, so either failing is a throw). -/
def patternCompiles (pattern : String) : Prop :=
  (compileRegex ("^" ++ translatePattern pattern ++ "$")).isSome ∧
    (compileRegex (translatePattern pattern)).isSome

instance (pattern : String) : Decidable (patternCompiles pattern) := by
  unfold patternCompiles
  infer_instance

/-- The loop body of `isExcluded` for one pattern: construct the anchored
and unanchored regexes (a construction failure throws), then the
four-way disjunction of the source. -/
def patternTest (normalizedPath : String) (pattern : String) : Except Unit Bool :=
  let rp := translatePattern pattern
  match compileRegex ("^" ++ rp ++ "$"), compileRegex rp with
  | some anchored, some unanchored =>
    .ok (jsTest anchored normalizedPath
      || (jsIncludes pattern "**/" && jsTest unanchored normalizedPath)
      || (jsStartsWith pattern "**/" && jsEndsWith normalizedPath ⟨pattern.data.drop 3⟩)
      || (jsIncludes pattern "**/" &&
            jsIncludes normalizedPath ⟨removeStars pattern.data⟩))
  | _, _ => .error ()

/-- The pattern loop: first match returns true, a regex-construction
throw propagates, and a path matching no pattern is not excluded. -/
def isExcludedLoop (normalizedPath : String) : List String → Except Unit Bool
  | [] => .ok false
  | p :: ps =>
    match patternTest normalizedPath p with
    | .error e => .error e
    | .ok true => .ok true
    | .ok false => isExcludedLoop normalizedPath ps

/-- `LineCounter.isExcluded`: normalize the relative path to forward
slashes, then run the pattern loop. -/
def isExcluded (relativePath : String) (patterns : List String) : Except Unit Bool :=
  isExcludedLoop ⟨charReplace '\\' ['/'] relativePath.data⟩ patterns

/-! ### The spec's restricted glob semantics (spec §4.1), for comparison -/

/-- One path segment against one pattern segment: `*` matches any run of
characters inside the segment, `?` exactly one character, anything else
itself.  (Spec-side definition.) -/
def segMatchF : Nat → List Char → List Char → Bool
  | 0, _, _ => false
  | fuel + 1, p, s =>
    match p, s with
    | [], [] => true
    | '*' :: ps, s =>
      segMatchF fuel ps s ||
        (match s with
         | [] => false
         | _ :: s1 => segMatchF fuel ('*' :: ps) s1)
    | '?' :: ps, _ :: s => segMatchF fuel ps s
    | c :: ps, d :: s => c = d && segMatchF fuel ps s
    | _, _ => false

/-- Entry point with sufficient fuel (every recursive step shortens the
pattern or the segment). -/
def segMatch (p s : List Char) : Bool := segMatchF (p.length + s.length + 1) p s

/-- Pattern segments against path segments: a `**` segment matches zero or
more whole path segments.  (Spec-side definition.) -/
def globMatchF : Nat → List (List Char) → List (List Char) → Bool
  | 0, _, _ => false
  | fuel + 1, ps, qs =>
    match ps, qs with
    | [], [] => true
    | [], _ :: _ => false
    | p :: ps, [] => if p = ['*', '*'] then globMatchF fuel ps [] else false
    | p :: ps, q :: qs =>
      if p = ['*', '*'] then globMatchF fuel ps (q :: qs) || globMatchF fuel (p :: ps) qs
      else segMatch p q && globMatchF fuel ps qs

/-- Entry point with sufficient fuel (every recursive step shortens one of
the segment lists). -/
def globMatch (ps qs : List (List Char)) : Bool :=
  globMatchF (ps.length + qs.length + 1) ps qs

/-- The spec's restricted glob: the forward-slash-normalized path matches
the pattern segment-wise.  (Spec-side definition.) -/
def specGlobMatches (pattern path : String) : Bool :=
  globMatch (splitCh '/' pattern.data)
    (splitCh '/' (charReplace '\\' ['/'] path.data))

/-- Spec-side exclusion: the path matches at least one configured
pattern. -/
def specGlobExcluded (path : String) (patterns : List String) : Bool :=
  patterns.any (fun p => specGlobMatches p path)

/-! ## File classifier and the git-mode counting loop
(`lineCounter.ts` 208–290, 377–440) -/

/-- `path.basename` for the separator-free or `/`-separated paths git
lists (no trailing separators occur in such listings). -/
def basenameL (l : List Char) : List Char :=
  l.foldl (fun acc c => if c = '/' then [] else acc ++ [c]) []

def basenameStr (p : String) : String := ⟨basenameL p.data⟩

/-- The suffix of a name starting at its last dot (helper for
`path.extname`). -/
def lastDotSuffix : List Char → List Char
  | [] => []
  | c :: rest =>
    match lastDotSuffix rest with
    | [] => if c = '.' then c :: rest else []
    | r => r

/-- `path.extname`: the suffix from the last dot of the basename, where a
leading dot (a dotfile) does not start an extension. -/
def extname (p : String) : String :=
  match basenameL p.data with
  | [] => ""
  | _ :: rest => ⟨lastDotSuffix rest⟩

/-- `String.prototype.toLowerCase` (ASCII; the extension allow-lists are
ASCII). -/
def lowerStr (s : String) : String := ⟨s.data.map Char.toLower⟩

/-- The extensionless-file allow-list of `shouldIncludeFile`. -/
def specialFiles : List String :=
  ["Dockerfile", "Makefile", "Rakefile", "Gemfile", "Vagrantfile", "Jenkinsfile", "Procfile"]

/-- `LineCounter.shouldIncludeFile` (`lineCounter.ts` 377–385). -/
def shouldIncludeFile (includeExtensions : List String) (filename : String) : Bool :=
  let extension := (lowerStr (extname filename)).drop 1
  if extension = "" then specialFiles.contains filename
  else includeExtensions.contains extension

/-- The binary-extension table of `isBinaryFile` (`lineCounter.ts`
394–403). -/
def binaryExtensions : List String :=
  [".exe", ".dll", ".so", ".dylib", ".a", ".lib", ".o", ".obj",
   ".png", ".jpg", ".jpeg", ".gif", ".bmp", ".ico", ".svg", ".webp",
   ".pdf", ".doc", ".docx", ".xls", ".xlsx", ".ppt", ".pptx",
   ".zip", ".tar", ".gz", ".bz2", ".7z", ".rar", ".jar", ".war",
   ".mp3", ".mp4", ".avi", ".mov", ".wmv", ".flv", ".webm", ".ogg",
   ".ttf", ".otf", ".woff", ".woff2", ".eot",
   ".pyc", ".pyo", ".class", ".dex",
   ".db", ".sqlite", ".mdb"]

/-- `LineCounter.isBinaryFile` (`lineCounter.ts` 387–440).  The sampled
bytes are modelled as the code points of the first 8000 decoded
characters (exact for ASCII content); the `> 0.3` float comparison is the
exact rational comparison, and a zero-byte read gives `NaN > 0.3`, i.e.
false, matching `0 > 0`.  An unreadable file is "not binary" (the
catch). -/
def isBinaryFile (fs : String → Option String) (filePath relativePath : String)
    (textFiles : List String) : Bool :=
  if !textFiles.isEmpty && textFiles.contains relativePath then false
  else if binaryExtensions.contains (lowerStr (extname filePath)) then true
  else
    match fs filePath with
    | none => false
    | some content =>
      let bytes := (content.data.take 8000).map Char.toNat
      if bytes.any (fun b => b = 0) then true
      else
        let nonPrintable :=
          (bytes.filter (fun b => decide (b < 32) && b ≠ 9 && b ≠ 10 && b ≠ 13)).length
        decide (10 * nonPrintable > 3 * bytes.length)

/-- `countFileLines` applied through `readFile`: the catch in
`countFileLines` turns an unreadable file into 0 lines. -/
def countFileLinesFS (fs : String → Option String) (filePath : String) : Nat :=
  match fs filePath with
  | none => 0
  | some content => countFileLines content

/-- `path.extname(filename).toLowerCase().slice(1) || 'no-ext'`. -/
def extLabel (filename : String) : String :=
  let e := (lowerStr (extname filename)).drop 1
  if e = "" then "no-ext" else e

/-- The per-file loop of `LineCounter.countLinesUsingGit`
(`lineCounter.ts` 252–283).  The try/catch around the body cannot fire:
`isBinaryFile` and `countFileLines` each swallow their own read
failures. -/
def processGitFiles (fs : String → Option String) (rootPath : String)
    (includeExtensions : List String) (textFiles : List String) :
    List String → LineCountResult → LineCountResult
  | [], result => result
  | file :: rest, result =>
    if file = "" then
      processGitFiles fs rootPath includeExtensions textFiles rest result
    else if !shouldIncludeFile includeExtensions (basenameStr file) then
      processGitFiles fs rootPath includeExtensions textFiles rest result
    else if isBinaryFile fs (joinPath rootPath file) file textFiles then
      processGitFiles fs rootPath includeExtensions textFiles rest result
    else
      let lines := countFileLinesFS fs (joinPath rootPath file)
      processGitFiles fs rootPath includeExtensions textFiles rest
        { totalLines := result.totalLines + lines
          fileCount := result.fileCount + 1
          files := result.files ++
            [{ path := file, lines := lines, extension := extLabel (basenameStr file) }] }

/-- Split a git listing into its non-blank lines
(`stdout.split('\n').filter(f => f.trim())`). -/
def gitListing (out : String) : List String :=
  ((splitCh '\n' out.data).filter (fun l => !(trimL l).isEmpty)).map (fun l => (⟨l⟩ : String))

/-- `LineCounter.countLinesUsingGit` (`lineCounter.ts` 217–289) after the
three git listings succeed: `trackedOut` from `git ls-files`,
`untrackedOut` from `git ls-files --others --exclude-standard`, and
`gitGrepOut` from `git grep -Il ""` (whose failure, `none`, makes every
listed file count as text). -/
def countLinesUsingGit (fs : String → Option String) (rootPath : String)
    (includeExtensions : List String) (trackedOut untrackedOut : String)
    (gitGrepOut : Option String) : LineCountResult :=
  let allFiles := gitListing trackedOut ++ gitListing untrackedOut
  let textFiles :=
    match gitGrepOut with
    | some out => gitListing out
    | none => allFiles
  processGitFiles fs rootPath includeExtensions textFiles allFiles
    { totalLines := 0, fileCount := 0, files := [] }

/-! ## Claim C1 -/

/-- C1, counterexample: the claim says `countFileLines` returns the number
of line-terminator occurrences, so that `"a\nb\nc"` counts as 2; the
current `countFileLines` returns 3 on that content (its two
terminators plus the unterminated final line). -/
theorem C1_counterexample :
    countFileLines "a\nb\nc" = 3 ∧ countTerminators "a\nb\nc".data = 2 := by decide

/-- C1, amended: `countFileLines` returns the number of line-terminator
occurrences (a lone `\n`, or a `\r\n` pair counted as one) only when the
content is empty or ends with a terminator; for non-empty content with no
trailing terminator it returns one more.  The first version
(`countFileLinesV1`) returns exactly the terminator count for every
content. -/
theorem C1_amended (content : String) :
    countFileLines content =
      countTerminators content.data +
        (if content.data ≠ [] ∧ content.data.getLast? ≠ some '\n' then 1 else 0) ∧
    countFileLinesV1 content = countTerminators content.data := by
  refine ⟨countFileLines_characterization content, ?_⟩
  rw [countFileLinesV1, countTerminators_eq_count]
  by_cases h0 : content.length = 0
  · rw [if_pos h0]
    have hnil : content.data = [] := by
      have hd : content.data.length = 0 := h0
      exact List.length_eq_zero.mp hd
    simp [hnil]
  · rw [if_neg h0]

/-! ## Claim C2 -/

/-- C2, counterexample: with a file system on which every read fails, a
listed, allow-listed file still increments `fileCount` and is pushed onto
`files` with 0 lines — `countFileLines` swallows the read error and
returns 0, so the skip-on-error catch of the loop never fires.  The
claim says the file must not be counted and must not appear. -/
theorem C2_counterexample :
    countLinesUsingGit (fun _ => none) "root" ["ts"] "a.ts" "" none =
      { totalLines := 0, fileCount := 1,
        files := [{ path := "a.ts", lines := 0, extension := "ts" }] } := by decide

/-- C2, amended: an unreadable file contributes 0 to `totalLines` and the
count always completes, but when the file passes the extension filter and
is not classified binary it still increments `fileCount` and appears in
`files` with `lines = 0`. -/
theorem C2_amended (fs : String → Option String) (root : String)
    (exts textFiles : List String) (file : String) (rest : List String)
    (res : LineCountResult) (hread : fs (joinPath root file) = none)
    (hne : file ≠ "") (hinc : shouldIncludeFile exts (basenameStr file) = true)
    (hbin : isBinaryFile fs (joinPath root file) file textFiles = false) :
    processGitFiles fs root exts textFiles (file :: rest) res =
      processGitFiles fs root exts textFiles rest
        { totalLines := res.totalLines
          fileCount := res.fileCount + 1
          files := res.files ++
            [{ path := file, lines := 0, extension := extLabel (basenameStr file) }] } := by
  rw [processGitFiles, if_neg hne]
  simp [hinc, hbin, countFileLinesFS, hread]

/-- C2, witness: the amended statement at a concrete unreadable file. -/
theorem C2_witness :
    processGitFiles (fun _ => none) "root" ["ts"] [] ["a.ts"]
        { totalLines := 0, fileCount := 0, files := [] } =
      processGitFiles (fun _ => none) "root" ["ts"] [] []
        { totalLines := 0, fileCount := 1,
          files := [{ path := "a.ts", lines := 0, extension := extLabel (basenameStr "a.ts") }] } :=
  C2_amended (fun _ => none) "root" ["ts"] [] "a.ts" [] _ rfl (by decide) (by decide) (by decide)

/-! ## Claim C3 -/

/-- C3, counterexample: the untracked-file counter of
`GitManager.getWorkingChanges` gives 4 for `"a\nb\nc\n"`, while the Line
Counter's `countFileLines` gives 3 and the terminator convention the claim
names also gives 3 — so `untrackedLines` follows neither. -/
theorem C3_counterexample :
    untrackedFileLines "a\nb\nc\n" = 4 ∧ countFileLines "a\nb\nc\n" = 3 ∧
      countTerminators "a\nb\nc\n".data = 3 := by decide

/-- C3, amended: each readable untracked file contributes
`content.split('\n').length`, i.e. one more than its number of `\n`
characters (so a 3-line untracked file with no trailing terminator does
contribute exactly 3, as in the claim's scenario, but a file ending in a
newline contributes terminators + 1, and an empty file contributes 1). -/
theorem C3_amended :
    (∀ content : String, untrackedFileLines content = content.data.count '\n' + 1) ∧
    (getWorkingChanges (fun p => if p = "r/f.ts" then some "a\nb\nc" else none)
        "r" "" "" ["f.ts"]).untrackedLines = 3 := by
  constructor
  · intro content
    rw [untrackedFileLines, splitCh_length]
  · decide

/-! ## Claims C4 and C7 -/

theorem patternTest_ok (n p : String) (h : patternCompiles p) :
    ∃ b, patternTest n p = .ok b := by
  obtain ⟨h1, h2⟩ := h
  rcases ha : compileRegex ("^" ++ translatePattern p ++ "$") with _ | ra
  · rw [ha] at h1
    simp at h1
  · rcases hb : compileRegex (translatePattern p) with _ | rb
    · rw [hb] at h2
      simp at h2
    · refine ⟨jsTest ra n
          || (jsIncludes p "**/" && jsTest rb n)
          || (jsStartsWith p "**/" && jsEndsWith n ⟨p.data.drop 3⟩)
          || (jsIncludes p "**/" && jsIncludes n ⟨removeStars p.data⟩), ?_⟩
      simp [patternTest, ha, hb]

theorem isExcludedLoop_ok (n : String) (ps : List String)
    (h : ∀ p ∈ ps, patternCompiles p) : ∃ b, isExcludedLoop n ps = .ok b := by
  induction ps with
  | nil => exact ⟨false, rfl⟩
  | cons p ps ih =>
    obtain ⟨b, hb⟩ := patternTest_ok n p (h p (by simp))
    cases b with
    | false =>
      obtain ⟨b2, hb2⟩ := ih (fun q hq => h q (by simp [hq]))
      exact ⟨b2, by rw [isExcludedLoop, hb]; exact hb2⟩
    | true => exact ⟨true, by rw [isExcludedLoop, hb]⟩

theorem isExcludedLoop_true_iff (n : String) (ps : List String)
    (h : ∀ p ∈ ps, patternCompiles p) :
    (isExcludedLoop n ps = .ok true ↔ ∃ p ∈ ps, patternTest n p = .ok true) := by
  induction ps with
  | nil => simp [isExcludedLoop]
  | cons p ps ih =>
    obtain ⟨b, hb⟩ := patternTest_ok n p (h p (by simp))
    have ihx := ih (fun q hq => h q (by simp [hq]))
    cases b with
    | false =>
      rw [isExcludedLoop, hb]
      simp only [ihx]
      constructor
      · intro hx
        obtain ⟨q, hq, hqt⟩ := hx
        exact ⟨q, by simp [hq], hqt⟩
      · intro hx
        obtain ⟨q, hq, hqt⟩ := hx
        rcases List.mem_cons.mp hq with rfl | hq2
        · rw [hb] at hqt
          simp at hqt
        · exact ⟨q, hq2, hqt⟩
    | true =>
      rw [isExcludedLoop, hb]
      constructor
      · intro _
        exact ⟨p, List.mem_cons_self p ps, hb⟩
      · intro _
        rfl

/-- C5: `Cache.get` returns null exactly when no entry exists for the
root, the entry's age strictly exceeds 5000 ms, or the supplied head /
fingerprint differ from the stored entry's; and in the age-exceeded and
mismatch cases the entry is deleted by the lookup. -/
theorem C5_get_contract (m : CacheMap) (root : String) (head : Option String)
    (status : String) (now : Int) :
    ((cacheGet m root head status now).1 = none ↔
      mapGet m (getKey root) = none ∨
        ∃ e, mapGet m (getKey root) = some e ∧
          (now - e.timestamp > maxAge ∨ e.gitHead ≠ head ∨ e.workingTreeStatus ≠ status)) ∧
    (∀ e, mapGet m (getKey root) = some e →
      (now - e.timestamp > maxAge ∨ e.gitHead ≠ head ∨ e.workingTreeStatus ≠ status) →
      mapGet (cacheGet m root head status now).2 (getKey root) = none) := by
  rcases hm : mapGet m (getKey root) with _ | e
  · refine ⟨by simp [cacheGet, hm], ?_⟩
    intro e he hcond
    exact absurd he (by simp)
  · by_cases h1 : now - e.timestamp > maxAge
    · have hv : cacheGet m root head status now = (none, mapDelete m (getKey root)) := by
        simp [cacheGet, hm, h1]
      rw [hv]
      refine ⟨⟨fun _ => Or.inr ⟨e, rfl, Or.inl h1⟩, fun _ => rfl⟩, ?_⟩
      intro e2 he2 hcond
      exact mapGet_mapDelete_self m (getKey root)
    · by_cases h2 : e.gitHead ≠ head ∨ e.workingTreeStatus ≠ status
      · have hv : cacheGet m root head status now = (none, mapDelete m (getKey root)) := by
          simp only [cacheGet, hm]
          rw [if_neg h1, if_pos h2]
        rw [hv]
        refine ⟨⟨fun _ => Or.inr ⟨e, rfl, Or.inr h2⟩, fun _ => rfl⟩, ?_⟩
        intro e2 he2 hcond
        exact mapGet_mapDelete_self m (getKey root)
      · have hv : cacheGet m root head status now = (some e.lineCountResult, m) := by
          simp only [cacheGet, hm]
          rw [if_neg h1, if_neg h2]
        rw [hv]
        constructor
        · constructor
          · intro hx
            exact absurd hx (by simp)
          · intro hx
            rcases hx with hx | ⟨e2, he2, hcond⟩
            · exact absurd hx (by simp)
            · injection he2 with he2
              subst he2
              rcases hcond with hc | hc
              · exact absurd hc h1
              · exact absurd hc h2
        · intro e2 he2 hcond
          injection he2 with he2
          subst he2
          rcases hcond with hc | hc
          · exact absurd hc h1
          · exact absurd hc h2

/-- C5, witness: a stale entry (age 6000 ms) is reported as null and
evicted. -/
theorem C5_witness :
    mapGet
      (cacheGet [("r", (⟨"r", some "h", "f", ⟨0, 0, []⟩, 0⟩ : CacheEntry))]
        "r" (some "h") "f" 6000).2 (getKey "r") = none :=
  (C5_get_contract [("r", (⟨"r", some "h", "f", ⟨0, 0, []⟩, 0⟩ : CacheEntry))]
    "r" (some "h") "f" 6000).2 (⟨"r", some "h", "f", ⟨0, 0, []⟩, 0⟩ : CacheEntry)
    (by decide) (by decide)

theorem mapSet_count (m : CacheMap) (k : String) (v : CacheEntry)
    (h : m.countP (fun e => decide (e.1 = k)) ≤ 1) :
    (mapSet m k v).countP (fun e => decide (e.1 = k)) = 1 := by
  induction m with
  | nil => simp [mapSet]
  | cons e rest ih =>
    obtain ⟨k1, v1⟩ := e
    by_cases hk : k1 = k
    · subst hk
      rw [List.countP_cons] at h
      simp at h
      have hr : rest.countP (fun e => decide (e.1 = k1)) = 0 := by
        rw [List.countP_eq_zero]
        intro e he
        obtain ⟨a, b⟩ := e
        simpa using h a b he
      simp [mapSet, List.countP_cons, hr]
    · rw [List.countP_cons] at h
      simp only [hk, decide_eq_true_eq, if_neg] at h
      have hrec := ih (by omega)
      simp only [mapSet, if_neg hk, List.countP_cons, hrec]
      simp [hk]

/-- C6: `Cache.get` immediately after `Cache.set` with the same
`(root, head, fingerprint)` (within the TTL) returns the stored result;
a second `set` for the same root overwrites the first (the doubly-set map
is pointwise equal to the map with only the second `set`); and a set on a
cache holding at most one entry for the root leaves exactly one entry for
it. -/
theorem C6_set_get (m : CacheMap) (root : String) (head : Option String)
    (status : String) (r : LineCountResult) (ts now : Int) :
    (now - ts ≤ maxAge →
      (cacheGet (cacheSet m root head status r ts) root head status now).1 = some r) ∧
    (∀ (h1 : Option String) (s1 : String) (r1 : LineCountResult) (t1 : Int) (k : String),
      mapGet (cacheSet (cacheSet m root h1 s1 r1 t1) root head status r ts) k =
        mapGet (cacheSet m root head status r ts) k) ∧
    (m.countP (fun e => decide (e.1 = getKey root)) ≤ 1 →
      (cacheSet m root head status r ts).countP
        (fun e => decide (e.1 = getKey root)) = 1) := by
  refine ⟨?_, ?_, ?_⟩
  · intro httl
    have hget := mapGet_mapSet_self m (getKey root)
      { workspaceRoot := root, gitHead := head, workingTreeStatus := status,
        lineCountResult := r, timestamp := ts }
    simp only [cacheGet, cacheSet, hget]
    rw [if_neg (by simpa using httl), if_neg (by simp)]
  · intro h1 s1 r1 t1 k
    exact mapGet_mapSet_mapSet m (getKey root) _ _ k
  · intro h
    exact mapSet_count m (getKey root) _ h

/-- C6, witness: the get-after-set half at concrete values (set at time
1000, get at time 1000). -/
theorem C6_witness :
    (cacheGet (cacheSet [] "r" (some "h") "f" (⟨7, 2, []⟩ : LineCountResult) 1000)
      "r" (some "h") "f" 1000).1 = some (⟨7, 2, []⟩ : LineCountResult) :=
  (C6_set_get [] "r" (some "h") "f" _ 1000 1000).1 (by decide)

/-- C9: an entry whose age is exactly 5000 ms is still returned (with
matching head and fingerprint) — eviction by age needs age strictly
greater than 5000 ms. -/
theorem C9_ttl_boundary (m : CacheMap) (root : String) (head : Option String)
    (status : String) (now : Int) (e : CacheEntry)
    (hm : mapGet m (getKey root) = some e) (hage : now - e.timestamp = maxAge)
    (hhead : e.gitHead = head) (hstatus : e.workingTreeStatus = status) :
    (cacheGet m root head status now).1 = some e.lineCountResult := by
  simp only [cacheGet, hm]
  rw [if_neg (by omega), if_neg (by simp [hhead, hstatus])]

/-- C9, witness: an entry stored at time 0 and read at time 5000 is
returned. -/
theorem C9_witness :
    (cacheGet [("r", (⟨"r", some "h", "f", ⟨3, 1, []⟩, 0⟩ : CacheEntry))]
      "r" (some "h") "f" 5000).1 = some (⟨3, 1, []⟩ : LineCountResult) :=
  C9_ttl_boundary [("r", (⟨"r", some "h", "f", ⟨3, 1, []⟩, 0⟩ : CacheEntry))]
    "r" (some "h") "f" 5000 (⟨"r", some "h", "f", ⟨3, 1, []⟩, 0⟩ : CacheEntry)
    (by decide) (by decide) (by decide) (by decide)

/-- C10: clearing the cache for one workspace root does not affect another
root's entry, and a subsequent `get` for the other root returns what it
would have returned before the clear. -/
theorem C10_frame (m : CacheMap) (r1 r2 : String) (head : Option String)
    (status : String) (now : Int) (hne : r1 ≠ r2) :
    mapGet (clearForWorkspace m r1) (getKey r2) = mapGet m (getKey r2) ∧
    (cacheGet (clearForWorkspace m r1) r2 head status now).1 =
      (cacheGet m r2 head status now).1 := by
  have hg : mapGet (clearForWorkspace m r1) (getKey r2) = mapGet m (getKey r2) :=
    mapGet_mapDelete_ne m (getKey r1) (getKey r2) hne
  refine ⟨hg, ?_⟩
  simp only [cacheGet, hg]
  rcases mapGet m (getKey r2) with _ | e
  · rfl
  · by_cases h1 : now - e.timestamp > maxAge
    · simp [h1]
    · by_cases h2 : e.gitHead ≠ head ∨ e.workingTreeStatus ≠ status
      · simp [h1, h2]
      · simp [h1, h2]

/-- C10, witness: clearing root "a" leaves root "b"'s lookup unchanged. -/
theorem C10_witness :
    mapGet (clearForWorkspace [("b", (⟨"b", none, "", ⟨0, 0, []⟩, 0⟩ : CacheEntry))] "a")
        (getKey "b") =
      mapGet [("b", (⟨"b", none, "", ⟨0, 0, []⟩, 0⟩ : CacheEntry))] (getKey "b") :=
  (C10_frame [("b", (⟨"b", none, "", ⟨0, 0, []⟩, 0⟩ : CacheEntry))]
    "a" "b" none "" 0 (by decide)).1

/-! ## Claim C8 -/

/-- C8, counterexample: with no local `main`/`master` and the single
remote branch `origin/maintenance` — so no remote-tracking `origin/main`
or `origin/master` exists — the claim says no trunk is detected, but
`findMainBranch` matches `origin/main` as a substring of
`origin/maintenance` and reports the trunk `main`. -/
theorem C8_counterexample :
    findMainBranch (some []) (some ["origin/maintenance"]) = some "main" ∧
      "main" ∉ ([] : List String) ∧ "master" ∉ ([] : List String) ∧
      "origin/main" ∉ ["origin/maintenance"] ∧
      "origin/master" ∉ ["origin/maintenance"] := by decide

/-- C8, amended: trunk detection prefers a local branch named `main`,
else a local `master`; otherwise it reports `main` when some remote
branch name merely contains the substring `origin/main` (respectively
`master` for `origin/master`) — not only when the remote-tracking branch
exists — and else no trunk.  When no trunk is detected,
`branchAdditions` and `branchDeletions` are 0 and `getGitStats` still
returns a result. -/
theorem C8_amended :
    (∀ (all : List String) (r : Option (List String)), "main" ∈ all →
      findMainBranch (some all) r = some "main") ∧
    (∀ (all : List String) (r : Option (List String)), "main" ∉ all → "master" ∈ all →
      findMainBranch (some all) r = some "master") ∧
    (∀ (all rall : List String), "main" ∉ all → "master" ∉ all →
      findMainBranch (some all) (some rall) =
        (if rall.any (fun b => jsIncludes b "origin/main") then some "main"
         else if rall.any (fun b => jsIncludes b "origin/master") then some "master"
         else none)) ∧
    (∀ (current : Option String) (bq rq : Option (List String))
        (dq : Option (Nat × Nat)) (w : WorkingChanges),
      findMainBranch bq rq = none →
      getGitStats true (some current) bq rq dq w =
        some ⟨jsOrDefault current "unknown", 0, 0, w.additions, w.deletions,
          w.untrackedLines, false⟩) := by
  refine ⟨?_, ?_, ?_, ?_⟩
  · intro all r h
    simp [findMainBranch, h]
  · intro all r h1 h2
    simp [findMainBranch, h1, h2]
  · intro all rall h1 h2
    simp [findMainBranch, h1, h2]
  · intro current bq rq dq w hmain
    simp [getGitStats, hmain]

/-- C8, witness: the amended statement at concrete branch listings,
including the substring case and the no-trunk statistics. -/
theorem C8_witness :
    findMainBranch (some ["main", "dev"]) none = some "main" ∧
    findMainBranch (some ["dev", "master"]) none = some "master" ∧
    findMainBranch (some ["dev"]) (some ["origin/maintenance"]) = some "main" ∧
    getGitStats true (some (some "dev")) (some ["dev"]) (some []) (some (5, 2))
        ⟨1, 2, 3⟩ =
      some ⟨"dev", 0, 0, 1, 2, 3, false⟩ := by
  refine ⟨C8_amended.1 _ none (by decide),
    C8_amended.2.1 _ none (by decide) (by decide), ?_, ?_⟩
  · have h := C8_amended.2.2.1 ["dev"] ["origin/maintenance"] (by decide) (by decide)
    rw [h]
    decide
  · exact C8_amended.2.2.2 (some "dev") (some ["dev"]) (some []) (some (5, 2))
      ⟨1, 2, 3⟩ (by decide)
